import Mathlib

/-!
Verification of the DeckenmalereiWiki article generator (src/parser.py).

Texts are modelled as `List Char`.  Each Python `re` substitution used by the
code is embedded as a deterministic head-matcher (the concrete patterns used
by the code are all deterministic once the usual leftmost / greedy / lazy
backtracking rules are unfolded) driven by a generic leftmost-rewrite engine
`subAll`.  The engine uses the input length as fuel, which is exact because
every matcher consumes at least one character.
-/

set_option maxRecDepth 20000

namespace DW

/-- Python whitespace (the ASCII part): matches `str.strip` and regex `\s`. -/
def isPySpace (c : Char) : Bool :=
  c = ' ' || c = '\t' || c = '\n' || c = '\r' || c = Char.ofNat 11 || c = Char.ofNat 12

/-- Python `str.lstrip()`. -/
def pyLstrip (s : List Char) : List Char := s.dropWhile isPySpace

/-- Python `str.rstrip()`. -/
def pyRstrip (s : List Char) : List Char := (s.reverse.dropWhile isPySpace).reverse

/-- Python `str.strip()`. -/
def pyStrip (s : List Char) : List Char := pyRstrip (pyLstrip s)

/-- Consume the literal `pat` from the front of `s`. -/
def stripLit : List Char → List Char → Option (List Char)
  | [], s => some s
  | _ :: _, [] => none
  | c :: cs, d :: ds => if c = d then stripLit cs ds else none

/-- Split `s` at the first occurrence of `pat`: returns the part before the
occurrence and the part after it (the lazy `(.*?)pat` idiom). -/
def splitFirst (pat : List Char) : List Char → Option (List Char × List Char)
  | [] =>
    match stripLit pat [] with
    | some r => some ([], r)
    | none => none
  | c :: cs =>
    match stripLit pat (c :: cs) with
    | some rest => some ([], rest)
    | none => (splitFirst pat cs).map (fun p => (c :: p.1, p.2))

/-- Whether `pat` occurs anywhere in `s`. -/
def containsSub (pat s : List Char) : Bool := (splitFirst pat s).isSome

theorem stripLit_eq {pat s r : List Char} (h : stripLit pat s = some r) :
    s = pat ++ r := by
  induction pat generalizing s with
  | nil => simpa [stripLit] using h
  | cons c cs ih =>
    cases s with
    | nil => simp [stripLit] at h
    | cons d ds =>
      by_cases hc : c = d
      · simp [stripLit, hc] at h
        simpa [hc] using congrArg (d :: ·) (ih h)
      · simp [stripLit, hc] at h

theorem splitFirst_eq {pat s : List Char} {a b : List Char}
    (h : splitFirst pat s = some (a, b)) : s = a ++ pat ++ b := by
  induction s generalizing a b with
  | nil =>
    simp only [splitFirst] at h
    cases hs : stripLit pat [] with
    | none => rw [hs] at h; exact absurd h (by simp)
    | some r =>
      rw [hs] at h
      have := stripLit_eq hs
      simp at h
      simp [← this, h.1.symm, h.2.symm]
  | cons c cs ih =>
    simp only [splitFirst] at h
    cases hs : stripLit pat (c :: cs) with
    | some rest =>
      rw [hs] at h
      simp at h
      have := stripLit_eq hs
      simp [← h.1, ← h.2, this]
    | none =>
      rw [hs] at h
      cases hr : splitFirst pat cs with
      | none => rw [hr] at h; simp at h
      | some p =>
        obtain ⟨p1, p2⟩ := p
        rw [hr] at h
        simp at h
        have := ih hr
        simp [← h.1, ← h.2, this]

theorem splitFirst_length {pat s a b : List Char}
    (h : splitFirst pat s = some (a, b)) :
    b.length + pat.length + a.length = s.length := by
  have := congrArg List.length (splitFirst_eq h)
  simp at this
  omega

theorem stripLit_length {pat s r : List Char} (h : stripLit pat s = some r) :
    r.length + pat.length = s.length := by
  have := congrArg List.length (stripLit_eq h)
  simp at this
  omega

/-- Generic leftmost, non-overlapping rewriting: at each position try the
head-matcher `m`; on a match emit the replacement and continue after the
match, otherwise keep one character and move on.  This is `re.sub` for a
matcher that consumes at least one character; `fuel` is initialised with the
input length, which then never runs out. -/
def subAllAux (m : List Char → Option (List Char × List Char)) :
    Nat → List Char → List Char
  | 0, s => s
  | _ + 1, [] => []
  | fuel + 1, c :: cs =>
    match m (c :: cs) with
    | some (rep, rest) => rep ++ subAllAux m fuel rest
    | none => c :: subAllAux m fuel cs

/-- Leftmost rewrite of every non-overlapping match of `m` in `s`. -/
def subAll (m : List Char → Option (List Char × List Char)) (s : List Char) :
    List Char :=
  subAllAux m s.length s

/-- `m` matches at no (nonempty) suffix of `s`. -/
def noMatchB (m : List Char → Option (List Char × List Char)) :
    List Char → Bool
  | [] => true
  | c :: cs => (m (c :: cs)).isNone && noMatchB m cs

theorem subAllAux_id {m} : ∀ (fuel : Nat) (s : List Char),
    s.length ≤ fuel → noMatchB m s = true → subAllAux m fuel s = s
  | 0, s, h, _ => rfl
  | fuel + 1, [], _, _ => rfl
  | fuel + 1, c :: cs, hlen, hnm => by
    simp only [noMatchB, Bool.and_eq_true, Option.isNone_iff_eq_none] at hnm
    simp only [subAllAux, hnm.1]
    have : cs.length ≤ fuel := by simp at hlen; omega
    rw [subAllAux_id fuel cs this hnm.2]

/-- A matcher with no match anywhere leaves the text unchanged. -/
theorem subAll_id {m} {s : List Char} (h : noMatchB m s = true) :
    subAll m s = s :=
  subAllAux_id s.length s (le_refl _) h

/-- Head-matcher for `open(.*?)close` (DOTALL): the lazy group stops at the
first occurrence of the closing literal.  `wrap` builds the replacement from
the captured group. -/
def tagM (op cl : List Char) (wrap : List Char → List Char)
    (s : List Char) : Option (List Char × List Char) :=
  match stripLit op s with
  | none => none
  | some r1 =>
    match splitFirst cl r1 with
    | none => none
    | some (content, rest) => some (wrap content, rest)

/-- Head-matcher for `<br\s*/?>`. -/
def brM (s : List Char) : Option (List Char × List Char) :=
  match stripLit ("<br".toList) s with
  | none => none
  | some r =>
    match r.dropWhile isPySpace with
    | '>' :: rest => some ("\n".toList, rest)
    | '/' :: '>' :: rest => some ("\n".toList, rest)
    | _ => none

/-- The apostrophe character, and the wiki bold/italic marker runs. -/
def apos : Char := Char.ofNat 39

def ap2 : List Char := [apos, apos]

def ap3 : List Char := [apos, apos, apos]

/-- Items of `re.findall(r"<li>(.*?)</li>", content)`, each `str.strip`ped as
in `_convert_list`. -/
def liItemsAux : Nat → List Char → List (List Char)
  | 0, _ => []
  | fuel + 1, s =>
    match splitFirst ("<li>".toList) s with
    | none => []
    | some (_, r) =>
      match splitFirst ("</li>".toList) r with
      | none => []
      | some (item, r2) => pyStrip item :: liItemsAux fuel r2

def liItems (s : List Char) : List (List Char) := liItemsAux s.length s

/-- `_convert_list`: one `marker item` line per item, then a blank line. -/
def listWrap (marker : Char) (content : List Char) : List Char :=
  (List.intercalate ("\n".toList)
    ((liItems content).map (fun it => marker :: ' ' :: it))) ++ "\n\n".toList

/-- Head-matcher for the anchor pattern
`<a\s+href=["...]([^"...]+)["...]>(.*?)</a>` (quote class holds `"` and the
apostrophe); replacement `[url label]`. -/
def anchorM (s : List Char) : Option (List Char × List Char) :=
  match stripLit ("<a".toList) s with
  | none => none
  | some r1 =>
    if (r1.takeWhile isPySpace).isEmpty then none
    else
      match stripLit ("href=".toList) (r1.dropWhile isPySpace) with
      | none => none
      | some r2 =>
        match r2 with
        | [] => none
        | q :: r3 =>
          if q = '"' || q = apos then
            let url := r3.takeWhile (fun c => !(c = '"' || c = apos))
            match r3.dropWhile (fun c => !(c = '"' || c = apos)) with
            | q2 :: '>' :: r4 =>
              if url.isEmpty then none
              else if q2 = '"' || q2 = apos then
                match splitFirst ("</a>".toList) r4 with
                | none => none
                | some (label, rest) =>
                  some ('[' :: (url ++ ' ' :: (label ++ [']'])), rest)
              else none
            | _ => none
          else none

/-- Head-matcher for `\n{3,}`, replaced by a blank line. -/
def nlM (s : List Char) : Option (List Char × List Char) :=
  let run := s.takeWhile (· = '\n')
  if 3 ≤ run.length then some ("\n\n".toList, s.dropWhile (· = '\n')) else none

def h1M : List Char → Option (List Char × List Char) :=
  tagM ("<h1>".toList) ("</h1>".toList) (fun c => "= ".toList ++ c ++ " =\n".toList)

def h2M : List Char → Option (List Char × List Char) :=
  tagM ("<h2>".toList) ("</h2>".toList) (fun c => "== ".toList ++ c ++ " ==\n".toList)

def h3M : List Char → Option (List Char × List Char) :=
  tagM ("<h3>".toList) ("</h3>".toList) (fun c => "=== ".toList ++ c ++ " ===\n".toList)

def h4M : List Char → Option (List Char × List Char) :=
  tagM ("<h4>".toList) ("</h4>".toList) (fun c => "==== ".toList ++ c ++ " ====\n".toList)

def strongM : List Char → Option (List Char × List Char) :=
  tagM ("<strong>".toList) ("</strong>".toList) id

def boldM : List Char → Option (List Char × List Char) :=
  tagM ("<b>".toList) ("</b>".toList) (fun c => ap3 ++ c ++ ap3)

def emM : List Char → Option (List Char × List Char) :=
  tagM ("<em>".toList) ("</em>".toList) (fun c => ap2 ++ c ++ ap2)

def iM : List Char → Option (List Char × List Char) :=
  tagM ("<i>".toList) ("</i>".toList) (fun c => ap2 ++ c ++ ap2)

def pM : List Char → Option (List Char × List Char) :=
  tagM ("<p>".toList) ("</p>".toList) (fun c => c ++ "\n\n".toList)

def ulM : List Char → Option (List Char × List Char) :=
  tagM ("<ul>".toList) ("</ul>".toList) (listWrap '*')

def olM : List Char → Option (List Char × List Char) :=
  tagM ("<ol>".toList) ("</ol>".toList) (listWrap '#')

/-- Faithful translation of `html_to_mediawiki`: the same substitutions in
the same order, then final `strip`. -/
def html_to_mediawiki (html : List Char) : List Char :=
  if html.isEmpty then []
  else
    let t := subAll h1M html
    let t := subAll h2M t
    let t := subAll h3M t
    let t := subAll h4M t
    let t := subAll strongM t
    let t := subAll boldM t
    let t := subAll emM t
    let t := subAll iM t
    let t := subAll pM t
    let t := subAll brM t
    let t := subAll ulM t
    let t := subAll olM t
    let t := subAll anchorM t
    let t := subAll nlM t
    pyStrip t

/-- Already-clean wiki text: none of the converter's patterns matches
anywhere (no recognized HTML tag, no run of three or more newlines) and the
text carries no leading or trailing whitespace. -/
def cleanWiki (s : List Char) : Bool :=
  noMatchB h1M s && noMatchB h2M s && noMatchB h3M s && noMatchB h4M s &&
  noMatchB strongM s && noMatchB boldM s && noMatchB emM s && noMatchB iM s &&
  noMatchB pM s && noMatchB brM s && noMatchB ulM s && noMatchB olM s &&
  noMatchB anchorM s && noMatchB nlM s && (pyStrip s == s)

def pOpenL : List Char := "<p>".toList

def pCloseL : List Char := "</p>".toList

/-- The `\s*\[` step of the citation pattern: greedy whitespace, then a
literal `[`. -/
def brkOpen (r1 : List Char) : Option (List Char) :=
  match r1.dropWhile isPySpace with
  | '[' :: r3 => some r3
  | _ => none

/-- The `(\d+)\]` step: a greedy nonempty digit run, then a literal `]`. -/
def brkClose (r3 : List Char) : Option (List Char × List Char) :=
  if (r3.takeWhile Char.isDigit).isEmpty then none
  else
    match r3.dropWhile Char.isDigit with
    | ']' :: r4 => some (r3.takeWhile Char.isDigit, r4)
    | _ => none

/-- The `\s*(.+?)</p>` step.  Backtracking is resolved as Python does: the
whitespace run (length `k`) is taken greedily first and the lazy body stops
at the first `</p>` strictly after it; only when no such occurrence exists
does the whitespace give back one character. -/
def citBody (r4 : List Char) : Option (List Char × List Char) :=
  let k := (r4.takeWhile isPySpace).length
  match splitFirst pCloseL (r4.drop (k + 1)) with
  | some (bodyTail, rest) => some ((r4.drop k).take (1 + bodyTail.length), rest)
  | none =>
    if k = 0 then none
    else
      match stripLit pCloseL (r4.drop k) with
      | some rest => some ((r4.drop (k - 1)).take 1, rest)
      | none => none

/-- Head-matcher for the citation definition pattern
`<p>\s*\[(\d+)\]\s*(.+?)</p>` (DOTALL).  Returns the number group, the raw
body group and the remainder after the match. -/
def citAt (s : List Char) : Option (List Char × List Char × List Char) :=
  match stripLit pOpenL s with
  | none => none
  | some r1 =>
    match brkOpen r1 with
    | none => none
    | some r3 =>
      match brkClose r3 with
      | none => none
      | some (digits, r4) =>
        match citBody r4 with
        | none => none
        | some (body, rest) => some (digits, body, rest)

/-- One match of the citation pattern: absolute start offset, matched length,
number group, raw body group. -/
structure CMatch where
  pos : Nat
  k : Nat
  num : List Char
  body : List Char
deriving DecidableEq

/-- All non-overlapping matches of the citation pattern, left to right, with
their offsets (`re.finditer`). -/
def scanCitAux : Nat → Nat → List Char → List CMatch
  | 0, _, _ => []
  | _ + 1, _, [] => []
  | fuel + 1, pos, c :: cs =>
    match citAt (c :: cs) with
    | some (num, body, rest) =>
      let k := (c :: cs).length - rest.length
      ⟨pos, k, num, body⟩ :: scanCitAux fuel (pos + k) rest
    | none => scanCitAux fuel (pos + 1) cs

def scanCit (s : List Char) : List CMatch := scanCitAux s.length 0 s

/-- Python-dict insertion: replace the value in place if the key is present,
otherwise append the binding. -/
def upsertA {α : Type} (m : List (String × α)) (k : String) (v : α) :
    List (String × α) :=
  match m with
  | [] => [(k, v)]
  | (k0, v0) :: t => if k0 = k then (k, v) :: t else (k0, v0) :: upsertA t k v

def lookupA {α : Type} (m : List (String × α)) (k : String) : Option α :=
  match m with
  | [] => none
  | (k0, v0) :: t => if k0 = k then some v0 else lookupA t k

/-- Removal matcher: a citation definition replaced by nothing. -/
def citRemM (s : List Char) : Option (List Char × List Char) :=
  (citAt s).map (fun t => ([], t.2.2))

/-- Head-matcher for the empty-paragraph pattern `<p>\s*</p>`. -/
def emptyPM (s : List Char) : Option (List Char × List Char) :=
  match stripLit pOpenL s with
  | none => none
  | some r =>
    match stripLit pCloseL (r.dropWhile isPySpace) with
    | none => none
    | some rest => some ([], rest)

/-- One block of the trailing pattern `<p>\s*</p>\s*`. -/
def oneBlock (s : List Char) : Option (List Char) :=
  match stripLit pOpenL s with
  | none => none
  | some r1 =>
    match stripLit pCloseL (r1.dropWhile isPySpace) with
    | none => none
    | some r2 => some (r2.dropWhile isPySpace)

/-- Does `s` consist entirely of one or more empty-paragraph blocks
(the anchored pattern `(<p>\s*</p>\s*)+$` matching from here to the end)? -/
def blocksToEndAux : Nat → List Char → Bool
  | 0, _ => false
  | fuel + 1, s =>
    match oneBlock s with
    | none => false
    | some rest => rest.isEmpty || blocksToEndAux fuel rest

def blocksToEnd (s : List Char) : Bool := blocksToEndAux s.length s

/-- Offset of the leftmost match of `(<p>\s*</p>\s*)+$` in `s`, if any. -/
def fbsAux : Nat → List Char → Option Nat
  | _, [] => none
  | i, c :: t => if blocksToEnd (c :: t) then some i else fbsAux (i + 1) t

/-- `re.sub(r"(<p>\s*</p>\s*)+$", "", s)` for a string with no trailing
whitespace (the code applies it right after `rstrip`). -/
def removeTrailingPB (s : List Char) : List Char :=
  match fbsAux 0 s with
  | some i => s.take i
  | none => s

/-- Faithful translation of `parse_citations`: pass 1 of the citation
resolver.  Returns the cleaned text and the `partid_num → body` map. -/
def parse_citations (text : List Char) (part_id : String) :
    List Char × List (String × String) :=
  if text.isEmpty then (text, [])
  else
    match scanCit text with
    | [] => (text, [])
    | m :: ms =>
      let citations := ((m :: ms).reverse).foldl
        (fun acc mm => upsertA acc mm.num.asString (pyStrip mm.body).asString) []
      let citation_start := m.pos
      let tafter := text.drop citation_start
      let non_citation := pyStrip (subAll emptyPM (subAll citRemM tafter))
      if non_citation.isEmpty then
        let cleaned := removeTrailingPB (pyRstrip (text.take citation_start))
        (cleaned, citations.map (fun p => (part_id ++ "_" ++ p.1, p.2)))
      else (text, [])

/-- Faithful translation of `replace_citation_refs`: rewrite `[n]` markers
(except at the start of a line, `(?<!^)` with MULTILINE) into `<ref>` tags,
threading the `used_refs` insertion-ordered key set. -/
def replaceRefsAux (allCit : List (String × String)) (part_id : String) :
    Nat → Bool → List String → List Char → List Char × List String
  | 0, _, used, s => (s, used)
  | _ + 1, _, used, [] => ([], used)
  | fuel + 1, atLS, used, c :: cs =>
    if c = '[' && !atLS then
      let ds := cs.takeWhile Char.isDigit
      match cs.dropWhile Char.isDigit with
      | ']' :: rest2 =>
        if ds.isEmpty then
          let r := replaceRefsAux allCit part_id fuel false used cs
          ('[' :: r.1, r.2)
        else
          let key := part_id ++ "_" ++ ds.asString
          match lookupA allCit key with
          | none =>
            let r := replaceRefsAux allCit part_id fuel false used rest2
            ('[' :: (ds ++ ']' :: r.1), r.2)
          | some body =>
            if key ∈ used then
              let r := replaceRefsAux allCit part_id fuel false used rest2
              (("<ref name=\"" ++ key ++ "\" />").toList ++ r.1, r.2)
            else
              let r := replaceRefsAux allCit part_id fuel false (used ++ [key]) rest2
              (("<ref name=\"" ++ key ++ "\">" ++ body ++ "</ref>").toList ++ r.1, r.2)
      | _ =>
        let r := replaceRefsAux allCit part_id fuel false used cs
        ('[' :: r.1, r.2)
    else
      let r := replaceRefsAux allCit part_id fuel (c = '\n') used cs
      (c :: r.1, r.2)

def replace_citation_refs (text : List Char) (part_id : String)
    (all_citations : List (String × String)) (used_refs : List String) :
    List Char × List String :=
  replaceRefsAux all_citations part_id text.length true used_refs text

/-! ## Data model and graph store -/

/-- An entity record as it sits in the loaded store: the `ID` key is present
(it was used as the dictionary key), every other field is optional. -/
structure Entity where
  ID : String
  sType : Option String := none
  appellation : Option String := none
  shortText : Option String := none
  text : Option String := none
  bibliography : Option String := none
deriving DecidableEq

/-- An indexed relation record: `ID` is the source entity ID. -/
structure Rel where
  ID : String
  sType : Option String := none
  relTar : Option String := none
  relDir : Option String := none
  relOrd : Option Int := none
deriving DecidableEq

structure Resource where
  ID : String
  appellation : Option String := none
  resProvider : Option String := none
  resLicense : Option String := none
deriving DecidableEq

/-- Raw JSON records before loading: every field, including `ID`, may be
absent. -/
structure RawEntity where
  ID : Option String := none
  sType : Option String := none
  appellation : Option String := none
  shortText : Option String := none
  text : Option String := none
  bibliography : Option String := none
deriving DecidableEq

structure RawRel where
  ID : Option String := none
  sType : Option String := none
  relTar : Option String := none
  relDir : Option String := none
  relOrd : Option Int := none
deriving DecidableEq

structure RawResource where
  ID : Option String := none
  appellation : Option String := none
  resProvider : Option String := none
  resLicense : Option String := none
deriving DecidableEq

/-- The loaded state: insertion-ordered maps mirror Python dicts, and
`relations_by_source` mirrors the `defaultdict(list)` index. -/
structure Store where
  entities : List (String × Entity) := []
  relations : List RawRel := []
  relations_by_source : List (String × List Rel) := []
  resources : List (String × Resource) := []
deriving DecidableEq

/-- Python truthiness of an optional string field: absent and `""` are
falsy. -/
def truthyO (o : Option String) : Bool := o.getD "" ≠ ""

/-- `defaultdict.get(k, [])`: a pure read, it does NOT insert a default
entry (unlike `defaultdict.__getitem__`); the map comes back to make any
mutation visible. -/
def ddGet (m : List (String × List Rel)) (k : String) :
    List Rel × List (String × List Rel) :=
  ((lookupA m k).getD [], m)

/-- `get_relations_by_type`: outgoing relations of one type, in index
order.  State-passing so that the frame property is expressible. -/
def get_relations_by_typeS (s : Store) (entity_id rel_type : String) :
    List Rel × Store :=
  let (lst, rbs) := ddGet s.relations_by_source entity_id
  (lst.filter (fun r => r.sType == some rel_type),
   { s with relations_by_source := rbs })

/-- `get_text_entities`: all TEXT entities in dict (insertion) order. -/
def get_text_entitiesS (s : Store) : List Entity × Store :=
  ((s.entities.map Prod.snd).filter (fun e => e.sType == some "TEXT"), s)

def get_text_entities (s : Store) : List Entity := (get_text_entitiesS s).1

/-- `self.resources.get(resource_id)`. -/
def resourceGetS (s : Store) (rid : String) : Option Resource × Store :=
  (lookupA s.resources rid, s)

/-- Sort key: `r.get("relOrd", 0)`. -/
def ordKey (r : Rel) : Int := r.relOrd.getD 0

/-- Stable insertion: `x` goes before the first element whose key is not
smaller, hence before equal keys, as in Python's stable `list.sort`. -/
def insOrd (x : Rel) : List Rel → List Rel
  | [] => [x]
  | y :: ys => if ordKey x ≤ ordKey y then x :: y :: ys else y :: insOrd x ys

/-- `part_relations.sort(key=lambda r: r.get("relOrd", 0))`: Python's sort is
stable and ascending; stable insertion sort computes the same list. -/
def pySortOrd : List Rel → List Rel
  | [] => []
  | x :: xs => insOrd x (pySortOrd xs)

/-- `target_id = rel.get("relTar"); if target_id in self.entities` followed
by the lookup: the resolved target ID and entity, if any. -/
def resolveTar (s : Store) (r : Rel) : Option (String × Entity) :=
  match r.relTar with
  | none => none
  | some tid => (lookupA s.entities tid).map (fun e => (tid, e))

def resolveTarS (s : Store) (r : Rel) : Option (String × Entity) × Store :=
  (resolveTar s r, s)

/-- The `for rel in part_relations` loop body of `collect_parts_recursive`,
with the recursive call abstracted as `collect`. -/
def collectListS (collect : String → Store → List Entity × Store) :
    List Rel → Store → List Entity × Store
  | [], s => ([], s)
  | r :: rs, s =>
    match resolveTarS s r with
    | (some te, s1) =>
      let (sub, s2) := collect te.1 s1
      let (rest, s3) := collectListS collect rs s2
      (te.2 :: (sub ++ rest), s3)
    | (none, s1) => collectListS collect rs s1

/-- `collect_parts_recursive`.  The Python recursion has no depth guard and
diverges on cyclic PART data; `fuel` bounds the depth, and any
`fuel > recursion depth` reproduces the Python behaviour (on acyclic data
the depth is at most the number of loaded entities). -/
def collectRecS : Nat → String → Store → List Entity × Store
  | 0, _, s => ([], s)
  | fuel + 1, entity_id, s =>
    let (rels, s1) := get_relations_by_typeS s entity_id "PART"
    collectListS (collectRecS fuel) (pySortOrd rels) s1

def get_text_partsS (s : Store) (fuel : Nat) (text_entity_id : String) :
    List Entity × Store :=
  collectRecS fuel text_entity_id s

def get_text_parts (fuel : Nat) (s : Store) (text_entity_id : String) :
    List Entity :=
  (get_text_partsS s fuel text_entity_id).1

/-- Fuel sufficient for every acyclic store: a PART chain cannot revisit an
entity, so its depth is at most the number of loaded entities. -/
def defaultFuel (s : Store) : Nat := s.entities.length + 1

/-- `get_lead_resource`. -/
def get_lead_resourceS (s : Store) (entity_id : String) :
    Option Resource × Store :=
  let (lead_rels, s1) := get_relations_by_typeS s entity_id "LEAD_RESOURCE"
  match lead_rels with
  | [] => (none, s1)
  | r :: _ =>
    match r.relTar with
    | none => (none, s1)
    | some rid => (lookupA s1.resources rid, s1)

/-- `get_images`. -/
def get_imagesS (s : Store) (entity_id : String) : List Resource × Store :=
  let (image_rels, s1) := get_relations_by_typeS s entity_id "IMAGE"
  (image_rels.filterMap (fun r => r.relTar.bind (lookupA s1.resources)), s1)

/-! ## Document assembly -/

/-- `rel_type.lower().rstrip("s")`. -/
def roleLabel (rt : String) : String :=
  (((rt.toList.map Char.toLower).reverse.dropWhile (· = 's')).reverse).asString

/-- One role paragraph of the infobox: the comma-joined display names of the
related entities that have one. -/
def roleStep (eid : String) (acc : List String × Store)
    (rt : String) : List String × Store :=
  let (rels, s') := get_relations_by_typeS acc.2 eid rt
  let names := rels.filterMap (fun r =>
    match r.relTar with
    | some tid =>
      match lookupA s'.entities tid with
      | some t => if truthyO t.appellation then some (t.appellation.getD "") else none
      | none => none
    | none => none)
  (if names.isEmpty then acc.1
   else acc.1 ++ ["| " ++ roleLabel rt ++ " = " ++ String.intercalate ", " names], s')

/-- `generate_infobox`. -/
def generate_infoboxS (s : Store) (e : Entity) : String × Store :=
  let l0 := ["\x7b\x7bInfobox Deckenmalerei"]
  let l1 := if truthyO e.appellation then l0 ++ ["| titel = " ++ e.appellation.getD ""] else l0
  let l2 := if truthyO e.shortText then l1 ++ ["| beschreibung = " ++ e.shortText.getD ""] else l1
  let (lead, s1) := get_lead_resourceS s e.ID
  let l3 :=
    match lead with
    | some r =>
      if truthyO r.resProvider then
        (l2 ++ ["| bild = Deckenmalerei_" ++ e.ID ++ ".jpg"]) ++
          (if truthyO r.resLicense then ["| lizenz = " ++ r.resLicense.getD ""] else [])
      else l2
    | none => l2
  let (l4, s2) := ["AUTHORS", "PAINTERS", "ARCHITECTS", "COMMISSIONERS"].foldl
    (roleStep e.ID) (l3, s1)
  let l5 := if e.ID ≠ "" then l4 ++ ["| entity_id = " ++ e.ID] else l4
  (String.intercalate "\n" (l5 ++ ["\x7d\x7d"]), s2)

/-- Pass 1 of `generate_article`: collect cleaned texts and the document-wide
citation table over all text parts. -/
def articleFirstPass (parts : List Entity) :
    List (String × List Char) × List (String × String) :=
  parts.foldl (fun acc p =>
    if truthyO p.text then
      let pc := parse_citations (p.text.getD "").toList p.ID
      (upsertA acc.1 p.ID pc.1,
       pc.2.foldl (fun m kv => upsertA m kv.1 kv.2) acc.2)
    else acc) ([], [])

/-- The body of the second-pass loop of `generate_article` for one part. -/
def articleSecondStep (part_texts : List (String × List Char))
    (all_citations : List (String × String))
    (acc : List String × List String × Store) (p : Entity) :
    List String × List String × Store :=
  let (lines, used, st) := acc
  let lines := if truthyO p.appellation
    then lines ++ ["= " ++ p.appellation.getD "" ++ " =", ""] else lines
  let (plead, st1) := get_lead_resourceS st p.ID
  let lines :=
    match plead with
    | some r =>
      if truthyO r.resProvider then
        lines ++ ["[[File:Deckenmalerei_" ++ p.ID ++ ".jpg|thumb|" ++
          r.appellation.getD "" ++ "]]", ""]
      else lines
    | none => lines
  let lu : List String × List String :=
    if truthyO p.text then
      match lookupA part_texts p.ID with
      | some ct =>
        let ru := replace_citation_refs ct p.ID all_citations used
        (lines ++ [(html_to_mediawiki ru.1).asString, ""], ru.2)
      | none => (lines, used)
    else (lines, used)
  let (imgs, st2) := get_imagesS st1 p.ID
  let lines2 :=
    if imgs.isEmpty then lu.1
    else lu.1 ++ ("<gallery>" ::
      (imgs.map (fun i => "File:Deckenmalerei_" ++ i.ID ++ ".jpg|" ++
        i.appellation.getD "")) ++ ["</gallery>", ""])
  (lines2, lu.2, st2)

/-- `generate_article`. -/
def generate_articleS (s : Store) (e : Entity) : String × Store :=
  let (ib, s1) := generate_infoboxS s e
  let p0 := [ib, ""]
  let p1 := if truthyO e.shortText then p0 ++ [e.shortText.getD "", ""] else p0
  let (text_parts, s2) := get_text_partsS s1 (defaultFuel s1) e.ID
  let fp := articleFirstPass text_parts
  let sp := text_parts.foldl (articleSecondStep fp.1 fp.2) (p1, [], s2)
  let lines :=
    if truthyO e.bibliography then
      sp.1 ++ ["== Literatur ==",
        (html_to_mediawiki (e.bibliography.getD "").toList).asString, ""]
    else sp.1
  (String.intercalate "\n" lines, sp.2.2)

def generate_article (s : Store) (e : Entity) : String := (generate_articleS s e).1

/-! ## Corpus generation -/

/-- The `articles[title] = content` loop of `generate_all_articles` over a
given entity selection. -/
def articlesFor (s : Store) (l : List Entity) : List (String × String) :=
  l.foldl (fun acc e =>
    upsertA acc (e.appellation.getD ("Untitled_" ++ e.ID)) (generate_article s e)) []

/-- `generate_all_articles`: note the truthiness test `if max_articles:`,
which treats both `None` and `0` as "no limit". -/
def generate_all_articles (s : Store) (max_articles : Option Nat) :
    List (String × String) :=
  let tes := get_text_entities s
  let tes :=
    match max_articles with
    | some n => if n ≠ 0 then tes.take n else tes
    | none => tes
  articlesFor s tes

/-- Modelled from the spec (§4.5, amended): a positive limit selects the
first `n` TEXT entities; no limit, and the falsy limit `0`, select all. -/
def selectSpecLimit (max_articles : Option Nat) (l : List Entity) : List Entity :=
  match max_articles with
  | some n => if 0 < n then l.take n else l
  | none => l

/-! ## Loading -/

def toEntity (i : String) (e : RawEntity) : Entity :=
  ⟨i, e.sType, e.appellation, e.shortText, e.text, e.bibliography⟩

def toRel (i : String) (r : RawRel) : Rel :=
  ⟨i, r.sType, r.relTar, r.relDir, r.relOrd⟩

def toResource (i : String) (r : RawResource) : Resource :=
  ⟨i, r.appellation, r.resProvider, r.resLicense⟩

/-- `self.entities = {e["ID"]: e for e in entities_list}`: `e["ID"]` raises
`KeyError` when absent, modelled as the error case. -/
def loadEntities (acc : List (String × Entity)) :
    List RawEntity → Except String (List (String × Entity))
  | [] => .ok acc
  | e :: es =>
    match e.ID with
    | none => .error "KeyError: ID"
    | some i => loadEntities (upsertA acc i (toEntity i e)) es

/-- `defaultdict` list append: first touch of a key appends the binding at
the end, later touches extend the existing list in place. -/
def appendAtA (m : List (String × List Rel)) (k : String) (v : Rel) :
    List (String × List Rel) :=
  match m with
  | [] => [(k, [v])]
  | (k0, l) :: t => if k0 = k then (k0, l ++ [v]) :: t else (k0, l) :: appendAtA t k v

/-- The indexing loop of `load_data`: only relations with `relDir == "->"`
are indexed, and only for those is `rel["ID"]` evaluated. -/
def loadIndex (acc : List (String × List Rel)) :
    List RawRel → Except String (List (String × List Rel))
  | [] => .ok acc
  | r :: rs =>
    if r.relDir == some "->" then
      match r.ID with
      | none => .error "KeyError: ID"
      | some i => loadIndex (appendAtA acc i (toRel i r)) rs
    else loadIndex acc rs

def loadResources (acc : List (String × Resource)) :
    List RawResource → Except String (List (String × Resource))
  | [] => .ok acc
  | c :: cs =>
    match c.ID with
    | none => .error "KeyError: ID"
    | some i => loadResources (upsertA acc i (toResource i c)) cs

/-- `load_data`: a raised `KeyError` aborts the load, so no store is
produced in the error case. -/
def load_data (es : List RawEntity) (rs : List RawRel)
    (cs : List RawResource) : Except String Store :=
  match loadEntities [] es with
  | .error m => .error m
  | .ok ents =>
    match loadIndex [] rs with
    | .error m => .error m
    | .ok idx =>
      match loadResources [] cs with
      | .error m => .error m
      | .ok ress => .ok ⟨ents, rs, idx, ress⟩

def isOkE {ε α : Type} : Except ε α → Bool
  | .ok _ => true
  | .error _ => false

/-! ## Properties of the stable sort -/

theorem insOrd_perm (x : Rel) (l : List Rel) : List.Perm (insOrd x l) (x :: l) := by
  induction l with
  | nil => rfl
  | cons y ys ih =>
    by_cases h : ordKey x ≤ ordKey y
    · simp [insOrd, h]
    · rw [show insOrd x (y :: ys) = y :: insOrd x ys from by simp [insOrd, h]]
      exact ((ih.cons y).trans (List.Perm.swap x y ys))

theorem pySortOrd_perm (l : List Rel) : List.Perm (pySortOrd l) l := by
  induction l with
  | nil => rfl
  | cons x xs ih => exact (insOrd_perm x (pySortOrd xs)).trans (ih.cons x)

theorem insOrd_pairwise {x : Rel} {l : List Rel}
    (h : l.Pairwise (fun a b => ordKey a ≤ ordKey b)) :
    (insOrd x l).Pairwise (fun a b => ordKey a ≤ ordKey b) := by
  induction l with
  | nil => simp [insOrd]
  | cons y ys ih =>
    rcases List.pairwise_cons.mp h with ⟨hy, hys⟩
    by_cases hxy : ordKey x ≤ ordKey y
    · rw [show insOrd x (y :: ys) = x :: y :: ys from by simp [insOrd, hxy]]
      refine List.pairwise_cons.mpr ⟨?_, h⟩
      intro b hb
      rcases List.mem_cons.mp hb with hb | hb
      · exact hb ▸ hxy
      · exact le_trans hxy (hy b hb)
    · rw [show insOrd x (y :: ys) = y :: insOrd x ys from by simp [insOrd, hxy]]
      refine List.pairwise_cons.mpr ⟨?_, ih hys⟩
      intro b hb
      have hb' := (insOrd_perm x ys).mem_iff.mp hb
      rcases List.mem_cons.mp hb' with hb' | hb'
      · exact hb' ▸ le_of_not_le hxy
      · exact hy b hb'

theorem pySortOrd_pairwise (l : List Rel) :
    (pySortOrd l).Pairwise (fun a b => ordKey a ≤ ordKey b) := by
  induction l with
  | nil => simp [pySortOrd]
  | cons x xs ih => exact insOrd_pairwise ih

theorem insOrd_filter (k : Int) (x : Rel) (l : List Rel) :
    (insOrd x l).filter (fun r => ordKey r == k) =
      (x :: l).filter (fun r => ordKey r == k) := by
  induction l with
  | nil => rfl
  | cons y ys ih =>
    by_cases hxy : ordKey x ≤ ordKey y
    · simp [insOrd, hxy]
    · have hlt : ordKey y < ordKey x := lt_of_not_ge hxy
      rw [show insOrd x (y :: ys) = y :: insOrd x ys from by simp [insOrd, hxy]]
      by_cases hxk : ordKey x = k
      · have hyk : ¬ ordKey y = k := by omega
        simp [List.filter_cons, hxk, hyk, ih]
      · by_cases hyk : ordKey y = k
        · simp [List.filter_cons, hxk, hyk, ih]
        · simp [List.filter_cons, hxk, hyk, ih]

/-- Ties are broken by original position: elements of any one key keep their
input order. -/
theorem pySortOrd_filter (k : Int) (l : List Rel) :
    (pySortOrd l).filter (fun r => ordKey r == k) =
      l.filter (fun r => ordKey r == k) := by
  induction l with
  | nil => rfl
  | cons x xs ih =>
    have := insOrd_filter k x (pySortOrd xs)
    simp only [pySortOrd, this, List.filter]
    by_cases hxk : ordKey x = k
    · simp [hxk, ih]
    · simp [hxk, ih]

/-! ## The section tree -/

mutual
/-- A node of the PART tree: the target ID of the resolved relation, the
entity found in the store, and the node's own PART subtree. -/
inductive PTree where
  | node : String → Entity → PForest → PTree
inductive PForest where
  | nil : PForest
  | cons : PTree → PForest → PForest
end

/-- Spec §4.4: depth-first pre-order — each part is followed immediately by
its full subtree, before any later sibling. -/
def flattenF : PForest → List Entity
  | .nil => []
  | .cons (.node _ e cs) ts => e :: (flattenF cs ++ flattenF ts)

def sortedPartRels (s : Store) (id : String) : List Rel :=
  pySortOrd (get_relations_by_typeS s id "PART").1

/-- `ForestF s d rels ts`: `ts` is exactly the tree of parts reachable
through `rels` (in order: unresolvable targets skipped, resolvable ones kept
with their recursively collected subtrees, children taken from the PART
relations sorted by `relOrd`), and its depth is at most `d`.  This is the
spec's description of the section tree, used as the acyclicity hypothesis. -/
inductive ForestF (s : Store) : Nat → List Rel → PForest → Prop where
  | nil : ∀ d, ForestF s d [] .nil
  | skip : ∀ d r rs ts, resolveTar s r = none →
      ForestF s d rs ts → ForestF s d (r :: rs) ts
  | keep : ∀ d r rs tid ent cs ts, resolveTar s r = some (tid, ent) →
      ForestF s d (sortedPartRels s tid) cs →
      ForestF s (d + 1) rs ts →
      ForestF s (d + 1) (r :: rs) (.cons (.node tid ent cs) ts)

theorem collectListS_store {collect : String → Store → List Entity × Store}
    (h : ∀ id st, (collect id st).2 = st) :
    ∀ (rs : List Rel) (st : Store), (collectListS collect rs st).2 = st := by
  intro rs
  induction rs with
  | nil => intro st; rfl
  | cons r rs ih =>
    intro st
    simp only [collectListS, resolveTarS]
    cases hres : resolveTar st r with
    | some te =>
      have h1 := h te.1 st
      simp [h1, ih st]
    | none => exact ih st

theorem collectRecS_store :
    ∀ (fuel : Nat) (id : String) (st : Store), (collectRecS fuel id st).2 = st := by
  intro fuel
  induction fuel with
  | zero => intro id st; rfl
  | succ f ih =>
    intro id st
    simp only [collectRecS, get_relations_by_typeS, ddGet]
    exact collectListS_store ih _ _

theorem collectListS_forest {s : Store} :
    ∀ {d : Nat} {rels : List Rel} {ts : PForest}, ForestF s d rels ts →
      ∀ fuel, d ≤ fuel →
        collectListS (collectRecS fuel) rels s = (flattenF ts, s) := by
  intro d rels ts h
  induction h with
  | nil d => intro fuel _; rfl
  | skip d r rs ts hres _ ih =>
    intro fuel hf
    simp only [collectListS, resolveTarS, hres]
    exact ih fuel hf
  | keep d r rs tid ent cs ts hres hcs hts ihc ihs =>
    intro fuel hf
    obtain ⟨f, rfl⟩ : ∃ f, fuel = f + 1 := ⟨fuel - 1, by omega⟩
    have hrec : collectRecS (f + 1) tid s = (flattenF cs, s) := by
      simp only [collectRecS, get_relations_by_typeS, ddGet]
      exact ihc f (by omega)
    simp only [collectListS, resolveTarS, hres, hrec,
      ihs (f + 1) hf, flattenF]

/-- C2: the traversal is the spec's depth-first pre-order, and the
per-level ordering of PART relations is the ascending stable sort on
`relOrd` (a permutation, sorted, with ties kept in index order). -/
theorem partTraversalPreOrder :
    (∀ l : List Rel, List.Perm (pySortOrd l) l ∧
      (pySortOrd l).Pairwise (fun a b => ordKey a ≤ ordKey b) ∧
      ∀ k : Int, (pySortOrd l).filter (fun r => ordKey r == k) =
        l.filter (fun r => ordKey r == k)) ∧
    ∀ (s : Store) (root : String) (d fuel : Nat) (ts : PForest),
      ForestF s d (sortedPartRels s root) ts → d < fuel →
      get_text_parts fuel s root = flattenF ts := by
  constructor
  · intro l
    exact ⟨pySortOrd_perm l, pySortOrd_pairwise l, fun k => pySortOrd_filter k l⟩
  · intro s root d fuel ts h hf
    obtain ⟨f, rfl⟩ : ∃ f, fuel = f + 1 := ⟨fuel - 1, by omega⟩
    have hm := collectListS_forest h f (by omega)
    simp only [sortedPartRels] at hm
    simp only [get_text_parts, get_text_partsS, collectRecS]
    rw [show (get_relations_by_typeS s root "PART").2 = s from rfl, hm]

def eWR : Entity := { ID := "R", sType := some "TEXT" }

def eWA : Entity := { ID := "A", sType := some "TEXT_PART" }

def eWB : Entity := { ID := "B", sType := some "TEXT_PART" }

def eWA1 : Entity := { ID := "A1", sType := some "TEXT_PART" }

def relWRA : Rel :=
  { ID := "R", sType := some "PART", relTar := some "A", relDir := some "->", relOrd := some 2 }

def relWRB : Rel :=
  { ID := "R", sType := some "PART", relTar := some "B", relDir := some "->", relOrd := some 1 }

def relWAA1 : Rel :=
  { ID := "A", sType := some "PART", relTar := some "A1", relDir := some "->", relOrd := some 0 }

def sW : Store :=
  { entities := [("R", eWR), ("A", eWA), ("B", eWB), ("A1", eWA1)],
    relations_by_source := [("R", [relWRA, relWRB]), ("A", [relWAA1])] }

/-- The section forest of `sW` at root `R`: `B` (order 1) first, then `A`
(order 2) immediately followed by its child `A1`. -/
def fW : PForest :=
  .cons (.node "B" eWB .nil)
    (.cons (.node "A" eWA (.cons (.node "A1" eWA1 .nil) .nil)) .nil)

theorem partTraversalPreOrder_witness :
    ForestF sW 2 (sortedPartRels sW "R") fW ∧ 2 < 4 ∧
      get_text_parts 4 sW "R" = flattenF fW := by
  have hA1 : ForestF sW 1 (sortedPartRels sW "A") (.cons (.node "A1" eWA1 .nil) .nil) :=
    ForestF.keep 0 relWAA1 [] "A1" eWA1 .nil .nil (by decide)
      (ForestF.nil 0) (ForestF.nil 1)
  have hF : ForestF sW 2 (sortedPartRels sW "R") fW :=
    ForestF.keep 1 relWRB [relWRA] "B" eWB .nil
      (.cons (.node "A" eWA (.cons (.node "A1" eWA1 .nil) .nil)) .nil)
      (by decide) (ForestF.nil 1)
      (ForestF.keep 1 relWRA [] "A" eWA
        (.cons (.node "A1" eWA1 .nil) .nil) .nil (by decide) hA1 (ForestF.nil 2))
  exact ⟨hF, by omega, partTraversalPreOrder.2 sW "R" 2 4 fW hF (by omega)⟩

theorem collectListS_skip {collect : String → Store → List Entity × Store}
    (hpres : ∀ id st, (collect id st).2 = st) (s : Store) (r : Rel)
    (hres : resolveTar s r = none) :
    ∀ (l₁ l₂ : List Rel),
      collectListS collect (l₁ ++ r :: l₂) s = collectListS collect (l₁ ++ l₂) s := by
  intro l₁
  induction l₁ with
  | nil =>
    intro l₂
    simp only [List.nil_append, collectListS, resolveTarS, hres]
  | cons r' l₁ ih =>
    intro l₂
    simp only [List.cons_append, collectListS, resolveTarS]
    cases hres' : resolveTar s r' with
    | some te => simp [hpres te.1 s, ih l₂]
    | none => exact ih l₂

/-- C8: a PART relation whose target is not a loaded entity is skipped by
the traversal loop without error: the result is the same as if the relation
were absent, so all later siblings (and their subtrees) are still visited. -/
theorem unresolvedPartSkipped (s : Store) (fuel : Nat) (l₁ l₂ : List Rel)
    (r : Rel) (hres : resolveTar s r = none) :
    collectListS (collectRecS fuel) (l₁ ++ r :: l₂) s =
      collectListS (collectRecS fuel) (l₁ ++ l₂) s :=
  collectListS_skip (fun id st => collectRecS_store fuel id st) s r hres l₁ l₂

def relWBad : Rel :=
  { ID := "R", sType := some "PART", relTar := some "ZZZ", relDir := some "->", relOrd := some 1 }

theorem unresolvedPartSkipped_witness :
    resolveTar sW relWBad = none ∧
      collectListS (collectRecS 3) ([relWRB] ++ relWBad :: [relWRA]) sW =
        collectListS (collectRecS 3) ([relWRB] ++ [relWRA]) sW :=
  ⟨by decide, unresolvedPartSkipped sW 3 [relWRB] [relWRA] relWBad (by decide)⟩

theorem get_lead_resourceS_store (s : Store) (id : String) :
    (get_lead_resourceS s id).2 = s := by
  unfold get_lead_resourceS
  rw [show get_relations_by_typeS s id "LEAD_RESOURCE" =
    ((get_relations_by_typeS s id "LEAD_RESOURCE").1, s) from rfl]
  cases (get_relations_by_typeS s id "LEAD_RESOURCE").1 with
  | nil => rfl
  | cons r _ =>
    cases hr : r.relTar with
    | none => simp [hr]
    | some rid => simp [hr]

theorem get_imagesS_store (s : Store) (id : String) :
    (get_imagesS s id).2 = s := rfl

theorem roleStep_store (eid : String) (acc : List String × Store) (rt : String) :
    (roleStep eid acc rt).2 = acc.2 := rfl

theorem roleFold_store (eid : String) :
    ∀ (rts : List String) (acc : List String × Store),
      (rts.foldl (roleStep eid) acc).2 = acc.2 := by
  intro rts
  induction rts with
  | nil => intro acc; rfl
  | cons rt rts ih =>
    intro acc
    rw [List.foldl_cons, ih (roleStep eid acc rt), roleStep_store]

theorem generate_infoboxS_store (s : Store) (e : Entity) :
    (generate_infoboxS s e).2 = s := by
  unfold generate_infoboxS
  simp only [roleFold_store]
  exact get_lead_resourceS_store s e.ID

theorem articleSecondStep_store (pt : List (String × List Char))
    (ac : List (String × String)) (acc : List String × List String × Store)
    (p : Entity) : (articleSecondStep pt ac acc p).2.2 = acc.2.2 := by
  show (get_imagesS (get_lead_resourceS acc.2.2 p.ID).2 p.ID).2 = acc.2.2
  rw [get_imagesS_store]
  exact get_lead_resourceS_store acc.2.2 p.ID

theorem articleSecondPass_store (pt : List (String × List Char))
    (ac : List (String × String)) :
    ∀ (ps : List Entity) (acc : List String × List String × Store),
      (ps.foldl (articleSecondStep pt ac) acc).2.2 = acc.2.2 := by
  intro ps
  induction ps with
  | nil => intro acc; rfl
  | cons p ps ih =>
    intro acc
    rw [List.foldl_cons, ih (articleSecondStep pt ac acc p), articleSecondStep_store]

theorem generate_articleS_store (s : Store) (e : Entity) :
    (generate_articleS s e).2 = s := by
  unfold generate_articleS
  simp only [generate_infoboxS_store, articleSecondPass_store]
  exact collectRecS_store _ _ _

/-- C9: every read operation — TEXT-entity selection, typed relation query,
resource lookup, lead-resource and image resolution, part traversal — and
whole-document assembly return the store exactly as given: entity map,
per-source relation index and resource map are unchanged. -/
theorem storeReadOnly (s : Store) (id rt rid : String) (fuel : Nat) (e : Entity) :
    (get_text_entitiesS s).2 = s ∧
    (get_relations_by_typeS s id rt).2 = s ∧
    (resourceGetS s rid).2 = s ∧
    (get_lead_resourceS s id).2 = s ∧
    (get_imagesS s id).2 = s ∧
    (get_text_partsS s fuel id).2 = s ∧
    (generate_articleS s e).2 = s :=
  ⟨rfl, rfl, rfl, get_lead_resourceS_store s id, rfl,
    collectRecS_store fuel id s, generate_articleS_store s e⟩

/-- C4 fails on the code: the converter yields a single line break after the
heading (the heading rule appends `\n`, the paragraph's blank line is behind
the content and then trimmed), not a blank line. -/
theorem headingParagraph_counterexample :
    html_to_mediawiki ("<h2>A</h2><p>B</p>".toList) ≠ "== A ==\n\nB".toList ∧
      html_to_mediawiki ("<h2>A</h2><p>B</p>".toList) = "== A ==\nB".toList := by
  constructor
  · decide
  · decide

/-- C4 (amended): `convert("<h2>A</h2><p>B</p>")` is exactly
`"== A ==\nB"` — heading markers followed by one line break, then the
paragraph content, the paragraph's trailing blank line being trimmed. -/
theorem headingParagraphExample :
    html_to_mediawiki ("<h2>A</h2><p>B</p>".toList) = "== A ==\nB".toList := by
  decide

/-- C7: on already-clean wiki text (no recognized tag matches anywhere, no
3+ newline run, no leading/trailing whitespace) the converter is the
identity, hence idempotent on such inputs. -/
theorem convertIdOnClean (s : List Char) (h : cleanWiki s = true) :
    html_to_mediawiki s = s := by
  unfold cleanWiki at h
  simp only [Bool.and_eq_true, beq_iff_eq] at h
  obtain ⟨⟨⟨⟨⟨⟨⟨⟨⟨⟨⟨⟨⟨⟨h1, h2⟩, h3⟩, h4⟩, h5⟩, h6⟩, h7⟩, h8⟩, h9⟩, h10⟩, h11⟩, h12⟩, h13⟩, h14⟩, h15⟩ := h
  unfold html_to_mediawiki
  by_cases hs : s.isEmpty
  · simp only [hs, if_pos]
    exact (List.isEmpty_iff.mp hs).symm
  · simp only [hs, if_neg, Bool.false_eq_true, not_false_iff]
    rw [subAll_id h1, subAll_id h2, subAll_id h3, subAll_id h4, subAll_id h5,
      subAll_id h6, subAll_id h7, subAll_id h8, subAll_id h9, subAll_id h10,
      subAll_id h11, subAll_id h12, subAll_id h13, subAll_id h14]
    exact h15

theorem convertIdOnClean_witness :
    cleanWiki ("== A ==\nB".toList) = true ∧
      html_to_mediawiki ("== A ==\nB".toList) = "== A ==\nB".toList :=
  ⟨by decide, convertIdOnClean ("== A ==\nB".toList) (by decide)⟩

/-! ## Pass 1 is atomic (citation extraction) -/

theorem length_dropWhile_le (p : Char → Bool) (l : List Char) :
    (l.dropWhile p).length ≤ l.length := by
  induction l with
  | nil => simp
  | cons c cs ih =>
    by_cases h : p c
    · simp only [List.dropWhile_cons, h, if_pos]
      exact le_trans ih (by simp)
    · simp [List.dropWhile_cons, h]

theorem pyRstrip_length (s : List Char) : (pyRstrip s).length ≤ s.length := by
  unfold pyRstrip
  simpa using length_dropWhile_le isPySpace s.reverse

theorem removeTrailingPB_length (s : List Char) :
    (removeTrailingPB s).length ≤ s.length := by
  unfold removeTrailingPB
  cases fbsAux 0 s with
  | none => exact le_refl _
  | some i => simp

theorem brkOpen_lt {r1 r3 : List Char} (h : brkOpen r1 = some r3) :
    r3.length < r1.length := by
  unfold brkOpen at h
  split at h
  next r3' hw =>
    obtain rfl : r3' = r3 := by simpa using h
    have h2 := length_dropWhile_le isPySpace r1
    rw [hw] at h2
    simp only [List.length_cons] at h2
    omega
  next => simp at h

theorem brkClose_lt {r3 : List Char} {d r4 : List Char}
    (h : brkClose r3 = some (d, r4)) : r4.length < r3.length := by
  unfold brkClose at h
  by_cases hd : (r3.takeWhile Char.isDigit).isEmpty
  · rw [if_pos hd] at h; exact absurd h (by simp)
  · rw [if_neg hd] at h
    split at h
    next r4' hw =>
      obtain ⟨-, rfl⟩ : List.takeWhile Char.isDigit r3 = d ∧ r4' = r4 := by
        simpa using h
      have h2 := length_dropWhile_le Char.isDigit r3
      rw [hw] at h2
      simp only [List.length_cons] at h2
      omega
    next => simp at h

theorem citBody_lt {r4 : List Char} {b2 rest : List Char}
    (h : citBody r4 = some (b2, rest)) : rest.length < r4.length + 1 := by
  have hp4 : pCloseL.length = 4 := rfl
  unfold citBody at h
  cases hsf : splitFirst pCloseL
      (r4.drop ((r4.takeWhile isPySpace).length + 1)) with
  | some pr =>
    obtain ⟨bt, rest'⟩ := pr
    simp only [hsf, Option.some.injEq, Prod.mk.injEq] at h
    obtain ⟨-, hrest⟩ := h
    subst hrest
    have hlen := splitFirst_length hsf
    rw [hp4] at hlen
    have hdrop : (r4.drop ((r4.takeWhile isPySpace).length + 1)).length =
        r4.length - ((r4.takeWhile isPySpace).length + 1) := by simp
    omega
  | none =>
    simp only [hsf] at h
    by_cases hk : (r4.takeWhile isPySpace).length = 0
    · rw [if_pos hk] at h; exact absurd h (by simp)
    · rw [if_neg hk] at h
      cases hst : stripLit pCloseL
          (r4.drop ((r4.takeWhile isPySpace).length)) with
      | none => simp [hst] at h
      | some rest' =>
        simp only [hst, Option.some.injEq, Prod.mk.injEq] at h
        obtain ⟨-, hrest⟩ := h
        subst hrest
        have hlen := stripLit_length hst
        rw [hp4] at hlen
        have hdrop : (r4.drop ((r4.takeWhile isPySpace).length)).length =
            r4.length - (r4.takeWhile isPySpace).length := by simp
        omega

theorem citAt_lt {s : List Char} {n b rest : List Char}
    (h : citAt s = some (n, b, rest)) : rest.length < s.length := by
  have hp3 : pOpenL.length = 3 := rfl
  unfold citAt at h
  cases hp : stripLit pOpenL s with
  | none => simp [hp] at h
  | some r1 =>
    simp only [hp] at h
    have hr1 := stripLit_length hp
    rw [hp3] at hr1
    cases hbo : brkOpen r1 with
    | none => simp [hbo] at h
    | some r3 =>
      simp only [hbo] at h
      have h3 := brkOpen_lt hbo
      cases hbc : brkClose r3 with
      | none => simp [hbc] at h
      | some pr =>
        obtain ⟨digits, r4⟩ := pr
        simp only [hbc] at h
        have h4 := brkClose_lt hbc
        cases hcb : citBody r4 with
        | none => simp [hcb] at h
        | some pb =>
          obtain ⟨body, rest'⟩ := pb
          simp only [hcb, Option.some.injEq, Prod.mk.injEq] at h
          obtain ⟨-, -, hrest⟩ := h
          subst hrest
          have h5 := citBody_lt hcb
          omega

theorem scanCitAux_head :
    ∀ (fuel pos : Nat) (s : List Char) (m : CMatch) (ms : List CMatch),
      s.length ≤ fuel → scanCitAux fuel pos s = m :: ms →
      pos ≤ m.pos ∧ m.pos + m.k ≤ pos + s.length ∧ 1 ≤ m.k := by
  intro fuel
  induction fuel with
  | zero => intro pos s m ms _ h; exact absurd h (by simp [scanCitAux])
  | succ f ih =>
    intro pos s m ms hlen h
    cases s with
    | nil => exact absurd h (by simp [scanCitAux])
    | cons c cs =>
      rw [scanCitAux] at h
      cases hca : citAt (c :: cs) with
      | some t =>
        obtain ⟨n, b, rest⟩ := t
        rw [hca] at h
        simp only [List.cons.injEq] at h
        have hk := citAt_lt hca
        obtain ⟨hm, -⟩ := h
        subst hm
        simp only [List.length_cons] at hk ⊢
        omega
      | none =>
        rw [hca] at h
        have := ih (pos + 1) cs m ms (by simp at hlen; omega) h
        simp only [List.length_cons]
        omega

theorem upsertA_ne_nil {α : Type} (m : List (String × α)) (k : String) (v : α) :
    upsertA m k v ≠ [] := by
  cases m with
  | nil => simp [upsertA]
  | cons p t =>
    obtain ⟨k0, v0⟩ := p
    by_cases h : k0 = k <;> simp [upsertA, h]

theorem citFold_ne_nil :
    ∀ (l : List CMatch) (acc : List (String × String)), l ≠ [] ∨ acc ≠ [] →
      l.foldl (fun acc mm => upsertA acc mm.num.asString (pyStrip mm.body).asString) acc ≠ [] := by
  intro l
  induction l with
  | nil =>
    intro acc h
    rcases h with h | h
    · exact absurd rfl h
    · simpa using h
  | cons x xs ih =>
    intro acc _
    rw [List.foldl_cons]
    exact ih _ (Or.inr (upsertA_ne_nil _ _ _))

/-- C10: `parse_citations` is atomic — the citation map is non-empty exactly
when the returned text differs from the input; it never strips text while
returning an empty map, nor returns the input unchanged with a non-empty
map. -/
theorem parseCitationsAtomic (text : List Char) (part_id : String) :
    (parse_citations text part_id).2 ≠ [] ↔
      (parse_citations text part_id).1 ≠ text := by
  unfold parse_citations
  by_cases hemp : text.isEmpty
  · simp [hemp]
  · simp only [hemp, Bool.false_eq_true, if_neg, not_false_iff]
    cases hscan : scanCit text with
    | nil => simp
    | cons m ms =>
      by_cases hnc : (pyStrip (subAll emptyPM (subAll citRemM (text.drop m.pos)))).isEmpty
      · simp only [hnc, if_pos]
        have hpos : m.pos < text.length := by
          have := scanCitAux_head text.length 0 text m ms (le_refl _) hscan
          omega
        have hclen : (removeTrailingPB (pyRstrip (text.take m.pos))).length < text.length := by
          have h1 := removeTrailingPB_length (pyRstrip (text.take m.pos))
          have h2 := pyRstrip_length (text.take m.pos)
          have h3 : (text.take m.pos).length ≤ m.pos := by simp
          omega
        have hne : removeTrailingPB (pyRstrip (text.take m.pos)) ≠ text := by
          intro hcontra
          rw [hcontra] at hclen
          omega
        have hmapne :
            ((m :: ms).reverse.foldl
              (fun acc mm => upsertA acc mm.num.asString (pyStrip mm.body).asString) []).map
              (fun p => (part_id ++ "_" ++ p.1, p.2)) ≠ [] := by
          have := citFold_ne_nil ((m :: ms).reverse) [] (Or.inl (by simp))
          simpa using this
        exact iff_of_true hmapne hne
      · simp [hnc]

theorem parseCitationsAtomic_witness :
    (parse_citations ("See [1].<p>[1] Foo</p>".toList) "P").2 ≠ [] ∧
      (parse_citations ("See [1].<p>[1] Foo</p>".toList) "P").1 ≠
        "See [1].<p>[1] Foo</p>".toList :=
  ⟨by decide,
   (parseCitationsAtomic ("See [1].<p>[1] Foo</p>".toList) "P").mp (by decide)⟩

/-- C3: when, after the earliest citation definition's start offset,
meaningful content remains (the suffix minus all definition paragraphs and
empty paragraphs, stripped, is non-empty), pass 1 returns the original text
and an empty citation map. -/
theorem interleavedCitationsUntouched (text : List Char) (part_id : String)
    (m : CMatch) (ms : List CMatch) (hscan : scanCit text = m :: ms)
    (hmeaning : pyStrip (subAll emptyPM (subAll citRemM (text.drop m.pos))) ≠ []) :
    parse_citations text part_id = (text, []) := by
  have hemp : ¬ text.isEmpty = true := by
    intro h
    rw [List.isEmpty_iff.mp h] at hscan
    exact absurd hscan (by simp [scanCit, scanCitAux])
  unfold parse_citations
  simp only [hemp, if_neg, not_false_iff, hscan]
  have : (pyStrip (subAll emptyPM (subAll citRemM (text.drop m.pos)))).isEmpty = false := by
    rw [List.isEmpty_eq_false_iff_exists_mem]
    cases h : pyStrip (subAll emptyPM (subAll citRemM (text.drop m.pos))) with
    | nil => exact absurd h hmeaning
    | cons a t => exact ⟨a, by simp⟩
  simp [this]

theorem interleavedCitationsUntouched_witness :
    scanCit ("<p>[1] Foo</p><p>More real text</p>".toList) =
      [⟨0, 14, "1".toList, "Foo".toList⟩] ∧
    pyStrip (subAll emptyPM (subAll citRemM
      (("<p>[1] Foo</p><p>More real text</p>".toList).drop 0))) ≠ [] ∧
    parse_citations ("<p>[1] Foo</p><p>More real text</p>".toList) "P" =
      ("<p>[1] Foo</p><p>More real text</p>".toList, []) :=
  ⟨by decide, by decide,
   interleavedCitationsUntouched ("<p>[1] Foo</p><p>More real text</p>".toList) "P"
     ⟨0, 14, "1".toList, "Foo".toList⟩ [] (by decide) (by decide)⟩

/-! ## Citation round trip (document assembly) -/

def eC1R : Entity := { ID := "R", sType := some "TEXT" }

def eC1P : Entity :=
  { ID := "P", sType := some "TEXT_PART", text := some "See [1].<p>[1] Foo</p>" }

def eC1Q : Entity :=
  { ID := "Q", sType := some "TEXT_PART", text := some "Also [1]." }

def relC1P : Rel :=
  { ID := "R", sType := some "PART", relTar := some "P", relDir := some "->", relOrd := some 1 }

def relC1Q : Rel :=
  { ID := "R", sType := some "PART", relTar := some "Q", relDir := some "->", relOrd := some 2 }

/-- Two-part document: `P` defines and uses citation 1 once; the marker
`[1]` occurs again in the later part `Q`. -/
def sC1 : Store :=
  { entities := [("R", eC1R), ("P", eC1P), ("Q", eC1Q)],
    relations_by_source := [("R", [relC1P, relC1Q])] }

/-- C1 fails on the code: the `[1]` occurrence in the other part `Q` is
resolved against `Q`'s own key `Q_1`, which has no definition, so it stays
the literal `Also [1].` — no short tag `<ref name="P_1" />` is emitted
anywhere in the document. -/
theorem crossPartShortTag_counterexample :
    generate_article sC1 eC1R =
      "\x7b\x7bInfobox Deckenmalerei\n| entity_id = R\n\x7d\x7d\n\nSee <ref name=\"P_1\">Foo</ref>.\n\nAlso [1].\n" ∧
    containsSub ("Also [1].".toList) (generate_article sC1 eC1R).toList = true ∧
    containsSub ("<ref name=\"P_1\" />".toList) (generate_article sC1 eC1R).toList = false := by
  refine ⟨by decide, by decide, by decide⟩

def eC1Pb : Entity :=
  { ID := "P", sType := some "TEXT_PART",
    text := some "See [1]. Again [1].<p>[1] Foo</p>" }

def sC1b : Store :=
  { entities := [("R", eC1R), ("P", eC1Pb), ("Q", eC1Q)],
    relations_by_source := [("R", [relC1P, relC1Q])] }

/-- C1 (amended): the trailing definition is stripped, the first `[1]` in
part `P` becomes the full tag, the second `[1]` in the same part becomes the
short tag, and the `[1]` in the other part `Q` is left unchanged because it
is keyed `Q_1`, which has no definition. -/
theorem citationRoundTrip :
    generate_article sC1b eC1R =
      "\x7b\x7bInfobox Deckenmalerei\n| entity_id = R\n\x7d\x7d\n\nSee <ref name=\"P_1\">Foo</ref>. Again <ref name=\"P_1\" />.\n\nAlso [1].\n" := by
  decide

/-! ## Loading -/

def rawRelNoID : RawRel := { relDir := some "<-" }

/-- C5 fails on the code: a relation record that is not outgoing
(`relDir ≠ "->"`) is never asked for its `ID`, so loading succeeds even
though the record lacks the ID field. -/
theorem loadMissingID_counterexample :
    rawRelNoID.ID = none ∧ isOkE (load_data [] [rawRelNoID] []) = true :=
  ⟨rfl, rfl⟩

theorem loadEntities_ok :
    ∀ (es : List RawEntity) (acc : List (String × Entity)),
      isOkE (loadEntities acc es) = true ↔ ∀ e ∈ es, e.ID.isSome = true := by
  intro es
  induction es with
  | nil => intro acc; simp [loadEntities, isOkE]
  | cons e es ih =>
    intro acc
    cases he : e.ID with
    | none => simp [loadEntities, he, isOkE]
    | some i => simp [loadEntities, he, ih]

theorem loadIndex_ok :
    ∀ (rs : List RawRel) (acc : List (String × List Rel)),
      isOkE (loadIndex acc rs) = true ↔
        ∀ r ∈ rs, r.relDir = some "->" → r.ID.isSome = true := by
  intro rs
  induction rs with
  | nil => intro acc; simp [loadIndex, isOkE]
  | cons r rs ih =>
    intro acc
    by_cases hd : r.relDir = some "->"
    · cases hi : r.ID with
      | none => simp [loadIndex, hd, hi, isOkE]
      | some i => simp [loadIndex, hd, hi, ih]
    · have hd' : (r.relDir == some "->") = false := by
        simp [hd]
      simp [loadIndex, hd', hd, ih]

theorem loadResources_ok :
    ∀ (cs : List RawResource) (acc : List (String × Resource)),
      isOkE (loadResources acc cs) = true ↔ ∀ c ∈ cs, c.ID.isSome = true := by
  intro cs
  induction cs with
  | nil => intro acc; simp [loadResources, isOkE]
  | cons c cs ih =>
    intro acc
    cases hc : c.ID with
    | none => simp [loadResources, hc, isOkE]
    | some i => simp [loadResources, hc, ih]

/-- C5 (amended): the load fails on a missing ID field of any entity
record, any resource record, or any OUTGOING (`relDir == "->"`) relation
record — and only then; a non-outgoing relation record without an ID is
stored without error.  A failed load aborts the whole run: no store value is
produced. -/
theorem loadMissingID (es : List RawEntity) (rs : List RawRel)
    (cs : List RawResource) :
    isOkE (load_data es rs cs) = true ↔
      ((∀ e ∈ es, e.ID.isSome = true) ∧
       (∀ r ∈ rs, r.relDir = some "->" → r.ID.isSome = true) ∧
       (∀ c ∈ cs, c.ID.isSome = true)) := by
  unfold load_data
  cases h1 : loadEntities [] es with
  | error m =>
    simp only [isOkE]
    constructor
    · intro h; exact absurd h (by simp)
    · rintro ⟨he, -, -⟩
      have := (loadEntities_ok es []).mpr he
      rw [h1] at this
      exact absurd this (by simp [isOkE])
  | ok v =>
    cases h2 : loadIndex [] rs with
    | error m =>
      simp only [isOkE]
      constructor
      · intro h; exact absurd h (by simp)
      · rintro ⟨-, hr, -⟩
        have := (loadIndex_ok rs []).mpr hr
        rw [h2] at this
        exact absurd this (by simp [isOkE])
    | ok v2 =>
      cases h3 : loadResources [] cs with
      | error m =>
        simp only [isOkE]
        constructor
        · intro h; exact absurd h (by simp)
        · rintro ⟨-, -, hc⟩
          have := (loadResources_ok cs []).mpr hc
          rw [h3] at this
          exact absurd this (by simp [isOkE])
      | ok v3 =>
        simp only [isOkE]
        constructor
        · intro _
          refine ⟨(loadEntities_ok es []).mp (by simp [h1, isOkE]),
            (loadIndex_ok rs []).mp (by simp [h2, isOkE]),
            (loadResources_ok cs []).mp (by simp [h3, isOkE])⟩
        · intro _; trivial

theorem loadMissingID_witness :
    isOkE (load_data [{ ID := some "E" }] [rawRelNoID] []) = true :=
  (loadMissingID [{ ID := some "E" }] [rawRelNoID] []).mpr
    ⟨by decide, by decide, by decide⟩

/-! ## Corpus generation limit -/

def eC6 : Entity := { ID := "T", sType := some "TEXT" }

def sC6 : Store := { entities := [("T", eC6)] }

/-- C6 fails on the code: `if max_articles:` treats the limit `0` as
falsy, so `generate_all_articles` with limit `0` generates ALL articles
instead of none. -/
theorem limitZero_counterexample :
    generate_all_articles sC6 (some 0) = articlesFor sC6 (get_text_entities sC6) ∧
    generate_all_articles sC6 (some 0) ≠ [] ∧
    articlesFor sC6 ((get_text_entities sC6).take 0) = [] := by
  refine ⟨rfl, by decide, rfl⟩

/-- C6 (amended): a positive limit `n` selects exactly the first `n` TEXT
entities in store order; no limit — and likewise the falsy limit `0` —
selects all of them; each article is keyed by the display title with
fallback `Untitled_<ID>` (the keying is part of `articlesFor`). -/
theorem limitSelection (s : Store) (lim : Option Nat) :
    generate_all_articles s lim =
      articlesFor s (selectSpecLimit lim (get_text_entities s)) := by
  cases lim with
  | none => rfl
  | some n =>
    by_cases hn : n = 0
    · simp [generate_all_articles, selectSpecLimit, hn]
    · simp [generate_all_articles, selectSpecLimit, hn, Nat.pos_of_ne_zero hn]

end DW
